import Mathlib

/-!
Verification of the Desire-Hunter hunt pipeline
(`src/frontend/src/app/api/hunt/route.ts`, `POST`).

The handler is embedded as a pure function of the request body and of an
environment record holding the outcomes of the three external services
(analysis, search, scrape).  Concurrent fan-out stages are embedded in
deterministic branch-submission order: the code always reassembles results
in that order (`Promise.all` keeps positional order), and the only shared
mutable state, the `errors` list, is appended to at most once per search
branch, so branch order is the canonical linearisation.

The handler also returns the trace of external calls it performs, so that
claims about calls not being made ("no search/scrape after a fatal
analyzer failure", "no external call on invalid input", "extraction not
invoked on sparse content") are statable.
-/

namespace DesireHunter

/-- A translated search query, `{ query, language }`, produced by
`analyzeDesire` (interface of `@/lib/gemini`). -/
structure TranslatedQuery where
  query : String
  language : String
deriving DecidableEq, Repr

/-- The result of `analyzeDesire`: `{ translatedQueries }`. -/
structure Analysis where
  translatedQueries : List TranslatedQuery
deriving DecidableEq, Repr

/-- Modelled from the spec: a `SearchResult` from `@/lib/serper` (the file is
not in the repository snapshot).  The pipeline reads only its `link` field;
other provider metadata does not influence any step. -/
structure SearchResult where
  link : String
deriving DecidableEq, Repr

/-- Modelled from the spec: the `Product` record produced by `extractProduct`
of `@/lib/gemini` (the file is not in the repository snapshot); the field
list matches the `Product` interface declared in
`src/frontend/src/app/page.tsx`.  The pipeline reads only `name`,
`officialUrl` and `relevanceScore`; the remaining descriptive fields
(brand, description, price, amazonUrl, rakutenUrl, reasoning) are carried
opaquely and are omitted here.  `officialUrl` is optional in TypeScript
(`officialUrl?: string`), hence `Option String`; `relevanceScore` is a
number, embedded as `Int` (no stage constrains its range). -/
structure Product where
  name : String
  officialUrl : Option String
  relevanceScore : Int
deriving DecidableEq, Repr

/-- The response envelope built by the handler (`HuntResult` in route.ts). -/
structure HuntResult where
  desire : String
  products : List Product
  totalSearched : Nat
  totalScraped : Nat
  errors : List String
deriving DecidableEq, Repr

/-- An external call performed by the handler, for the call trace. -/
inductive Call where
  | analyze (desire : String)
  | search (query : String) (language : String) (lim : Nat)
  | scrape (url : String)
  | extract (content : String) (desire : String)
deriving DecidableEq, Repr

/-- The `desire` field of the parsed request body: absent (or a falsy
non-string), present with a non-string value, or a string.  `parseFail`
stands for `request.json()` itself throwing (malformed body), which the
outer `catch` turns into the generic 500. -/
inductive ReqBody where
  | parseFail
  | noDesire
  | nonString
  | str (s : String)
deriving DecidableEq, Repr

/-- The HTTP response: 400 with a message, 200 with a `HuntResult`,
or 500 with a message. -/
inductive Response where
  | badRequest (msg : String)
  | ok (r : HuntResult)
  | serverError (msg : String)
deriving DecidableEq, Repr

/-- Outcomes of the three external services for one request: each call
either succeeds with a value or throws (`Except.error`).  `scrape` may
succeed with no content (`none`), matching `content: string | absent`. -/
structure Env where
  analyzeDesire : String → Except String Analysis
  search : String → String → Nat → Except String (List SearchResult)
  scrape : String → Except String (Option String)
  extractProduct : String → String → Except String Product

/-- The guard `!desire || typeof desire !== "string"` (route.ts line 21):
the request proceeds only when `desire` is a string and truthy, i.e.
non-empty. -/
def getDesire : ReqBody → Option String
  | .str s => if s = "" then none else some s
  | _ => none

/-- One search branch (route.ts lines 45-55): call
`search(query.query, query.language, 3)`; on success contribute the hits,
on error contribute no hits and push `` `検索エラー: ${query.language}` ``
onto `errors`.  Returns (hits, error strings, calls). -/
def searchBranch (env : Env) (q : TranslatedQuery) :
    List SearchResult × List String × List Call :=
  match env.search q.query q.language 3 with
  | .ok results => (results, [], [Call.search q.query q.language 3])
  | .error _ => ([], ["検索エラー: " ++ q.language], [Call.search q.query q.language 3])

/-- `[...new Set(xs)]` step: JavaScript `Set` insertion keeps the first
occurrence of each element, in insertion order. -/
def insertUnique (acc : List String) (x : String) : List String :=
  if acc.contains x then acc else acc ++ [x]

/-- `[...new Set(allSearchResults.map(r => r.link))]` (route.ts line 62):
insertion-order deduplication. -/
def setDedup (xs : List String) : List String :=
  xs.foldl insertUnique []

/-- The merger (route.ts lines 62-63): map hits to links, deduplicate
insertion-order, truncate to the first 5. -/
def mergeCandidates (hits : List SearchResult) : List String :=
  (setDedup (hits.map (·.link))).take 5

/-- The JavaScript truthiness-and-length guard
`content && content.length > 100` (route.ts line 72). -/
def contentOk (content : Option String) : Bool :=
  match content with
  | some c => !(c == "") && decide (100 < c.length)
  | none => false

/-- One scrape+extract branch (route.ts lines 68-81): scrape the url; if the
content passes the guard, extract a product; any error in either call is
caught locally and yields `null` (no product).  Returns (product slot,
calls). -/
def scrapeBranch (env : Env) (desire url : String) :
    Option Product × List Call :=
  match env.scrape url with
  | .error _ => (none, [Call.scrape url])
  | .ok content =>
    if contentOk content then
      match content with
      | some c =>
        match env.extractProduct c desire with
        | .ok product => (some product, [Call.scrape url, Call.extract c desire])
        | .error _ => (none, [Call.scrape url, Call.extract c desire])
      | none => (none, [Call.scrape url])
    else (none, [Call.scrape url])

/-- Embedding of `toLowerCase()`: lower-case the string character by
character (the default Unicode case conversion, applied per character). -/
def lowerStr (s : String) : String :=
  String.mk (s.data.map Char.toLower)

/-- The duplicate check of route.ts lines 90-94, with `p` an already-kept
product and `product` the candidate:
`p.name.toLowerCase() === product.name.toLowerCase() ||
 (p.officialUrl && p.officialUrl === product.officialUrl)`.
`p.officialUrl &&` is JavaScript truthiness: `undefined` and `""` are
falsy. -/
def isDuplicate (p product : Product) : Bool :=
  lowerStr p.name == lowerStr product.name ||
    (match p.officialUrl with
     | some u => !(u == "") && product.officialUrl == some u
     | none => false)

/-- One iteration of the filtering loop (route.ts lines 87-100): keep a
product slot only if it is non-null, has `relevanceScore >= 5`, and is not
a duplicate of an already-kept product; kept products are appended in
arrival order. -/
def addProduct (acc : List Product) (slot : Option Product) : List Product :=
  match slot with
  | none => acc
  | some product =>
    if 5 ≤ product.relevanceScore then
      if acc.any (fun p => isDuplicate p product) then acc
      else acc ++ [product]
    else acc

/-- The filtering loop over all product slots, in candidate order. -/
def keptProducts (slots : List (Option Product)) : List Product :=
  slots.foldl addProduct []

/-- Stable insertion (for the embedding of
`sort((a, b) => b.relevanceScore - a.relevanceScore)`, route.ts line 103):
`p` goes before the first element with a strictly smaller score, and after
every element with a score ≥ its own. -/
def insertDesc (p : Product) : List Product → List Product
  | [] => [p]
  | q :: qs =>
    if q.relevanceScore ≤ p.relevanceScore then p :: q :: qs
    else q :: insertDesc p qs

/-- `Array.prototype.sort` with comparator
`(a, b) => b.relevanceScore - a.relevanceScore` sorts by `relevanceScore`
descending and is stable (ECMAScript 2019 requires sort stability).  A
stable sort by a total preorder is a unique function of its input, so it
is embedded as stable insertion sort: elements are inserted left to right,
each going after all earlier elements of equal score. -/
def sortDesc (l : List Product) : List Product :=
  l.foldr insertDesc []

/-- `analysis.translatedQueries.slice(0, 2)` (route.ts line 43). -/
def limitedQueries (analysis : Analysis) : List TranslatedQuery :=
  analysis.translatedQueries.take 2

/-- `searchResults.flat()` (route.ts line 58): all hits of the successful
search branches, in branch-then-hit order. -/
def pipelineHits (env : Env) (analysis : Analysis) : List SearchResult :=
  (((limitedQueries analysis).map (searchBranch env)).map (·.1)).flatten

/-- The strings pushed onto `result.errors` by failed search branches
(route.ts line 52), in branch order. -/
def pipelineErrors (env : Env) (analysis : Analysis) : List String :=
  (((limitedQueries analysis).map (searchBranch env)).map (·.2.1)).flatten

/-- The deduplicated, capped candidate urls (route.ts lines 62-63). -/
def pipelineUrls (env : Env) (analysis : Analysis) : List String :=
  mergeCandidates (pipelineHits env analysis)

/-- The per-candidate product slots (`await Promise.all(scrapePromises)`,
route.ts line 83), one per candidate url, in candidate order. -/
def pipelineSlots (env : Env) (desire : String) (analysis : Analysis) :
    List (Option Product) :=
  ((pipelineUrls env analysis).map (scrapeBranch env desire)).map (·.1)

/-- The products surviving the filter/dedup loop (route.ts lines 87-100),
in arrival (candidate) order. -/
def pipelineKept (env : Env) (desire : String) (analysis : Analysis) :
    List Product :=
  keptProducts (pipelineSlots env desire analysis)

/-- The external calls made by the two fan-out stages, in branch order. -/
def pipelineCalls (env : Env) (desire : String) (analysis : Analysis) :
    List Call :=
  (((limitedQueries analysis).map (searchBranch env)).map (·.2.2)).flatten ++
    (((pipelineUrls env analysis).map (scrapeBranch env desire)).map (·.2)).flatten

/-- The main pipeline after a successful `analyzeDesire` (route.ts lines
41-108): take the first 2 queries, fan out searches, flatten in branch
order, merge/dedup/cap candidates, fan out scrape+extract, filter and
dedup products, stable-sort by score descending, truncate to 5. -/
def huntPipeline (env : Env) (desire : String) (analysis : Analysis) :
    HuntResult × List Call :=
  ({ desire := desire
     products := (sortDesc (pipelineKept env desire analysis)).take 5
     totalSearched := (pipelineHits env analysis).length
     totalScraped := (pipelineUrls env analysis).length
     errors := pipelineErrors env analysis },
   pipelineCalls env desire analysis)

/-- The `POST` handler (route.ts lines 16-118): parse/validate the body
(400 on missing/non-string/empty desire), run `analyzeDesire` (a thrown
error reaches the outer catch: generic 500, nothing else runs), then the
pipeline.  Returns the response together with the trace of external calls
performed. -/
def runPOST (body : ReqBody) (env : Env) : Response × List Call :=
  match body with
  | .parseFail => (.serverError "内部エラーが発生しました", [])
  | body =>
    match getDesire body with
    | none => (.badRequest "欲求を入力してください", [])
    | some desire =>
      match env.analyzeDesire desire with
      | .error _ => (.serverError "内部エラーが発生しました", [Call.analyze desire])
      | .ok analysis =>
        let out := huntPipeline env desire analysis
        (.ok out.1, Call.analyze desire :: out.2)

/-- First-occurrence deduplication, stated by recursion as in the spec's
"preserve only the first occurrence of each distinct location": keep the
head, drop its later duplicates, recurse.  Used to characterise
`setDedup`. -/
def dedupFirst : List String → List String
  | [] => []
  | x :: xs => x :: dedupFirst (xs.filter (fun y => !(y == x)))
termination_by l => l.length
decreasing_by
  simp only [List.length_cons]
  exact Nat.lt_succ_of_le (List.length_filter_le _ _)

/-- The spec's duplicate-freedom relation on two final products: their
names differ after case folding, and they do not share a non-empty
`officialUrl`. -/
def distinctSpec (a b : Product) : Prop :=
  lowerStr a.name ≠ lowerStr b.name ∧
    ∀ u : String, u ≠ "" → a.officialUrl = some u → b.officialUrl ≠ some u

/-- 101 characters: the shortest content length that passes the
`content.length > 100` guard. -/
def pad : String := String.mk (List.replicate 101 'a')

/-- Exactly 100 characters: content of this length does NOT pass the
`content.length > 100` guard. -/
def pad100 : String := String.mk (List.replicate 100 'a')

/-- A happy-path service environment: three translated queries (only two
are searched), overlapping hits, and extractions producing a
case-insensitive name duplicate, an `officialUrl` duplicate, a sub-5
score, and a score tie. -/
def envA : Env where
  analyzeDesire := fun _ =>
    .ok ⟨[⟨"focus", "en"⟩, ⟨"集中", "ja"⟩, ⟨"extra", "fr"⟩]⟩
  search := fun _ lang _ =>
    if lang = "en" then .ok [⟨"u1"⟩, ⟨"u2"⟩, ⟨"u3"⟩]
    else if lang = "ja" then .ok [⟨"u2"⟩, ⟨"u4"⟩, ⟨"u5"⟩]
    else .error "unused"
  scrape := fun url => .ok (some (url ++ pad))
  extractProduct := fun c _ =>
    if c = "u1" ++ pad then .ok ⟨"Alpha", some "http://a", 7⟩
    else if c = "u2" ++ pad then .ok ⟨"alpha", none, 9⟩
    else if c = "u3" ++ pad then .ok ⟨"Beta", some "http://a", 8⟩
    else if c = "u4" ++ pad then .ok ⟨"Gamma", none, 4⟩
    else if c = "u5" ++ pad then .ok ⟨"Delta", some "http://d", 9⟩
    else .error "no product"

/-- The response envelope `runPOST (.str "d") envA` produces. -/
def resA : HuntResult :=
  { desire := "d"
    products := [⟨"Delta", some "http://d", 9⟩, ⟨"Alpha", some "http://a", 7⟩]
    totalSearched := 6
    totalScraped := 5
    errors := [] }

/-- The call trace `runPOST (.str "d") envA` produces. -/
def traceA : List Call :=
  [.analyze "d", .search "focus" "en" 3, .search "集中" "ja" 3,
   .scrape "u1", .extract ("u1" ++ pad) "d",
   .scrape "u2", .extract ("u2" ++ pad) "d",
   .scrape "u3", .extract ("u3" ++ pad) "d",
   .scrape "u4", .extract ("u4" ++ pad) "d",
   .scrape "u5", .extract ("u5" ++ pad) "d"]

/-- An environment where the first (English) search branch throws and the
second (Japanese) succeeds with two hits; every scrape throws. -/
def envB : Env where
  analyzeDesire := fun _ => .ok ⟨[⟨"q1", "en"⟩, ⟨"q2", "ja"⟩]⟩
  search := fun _ lang _ =>
    if lang = "ja" then .ok [⟨"v1"⟩, ⟨"v2"⟩] else .error "search down"
  scrape := fun _ => .error "scrape down"
  extractProduct := fun _ _ => .error "unused"

/-- An environment where the Query Analyzer itself throws. -/
def envC : Env where
  analyzeDesire := fun _ => .error "analyzer down"
  search := fun _ _ _ => .error "unused"
  scrape := fun _ => .error "unused"
  extractProduct := fun _ _ => .error "unused"

/-- An environment where scraping succeeds with content of exactly 100
characters and extraction would succeed if it were ever called. -/
def envD : Env where
  analyzeDesire := fun _ => .ok ⟨[⟨"q", "en"⟩]⟩
  search := fun _ _ _ => .ok [⟨"u1"⟩]
  scrape := fun _ => .ok (some pad100)
  extractProduct := fun _ _ => .ok ⟨"X", none, 9⟩

/-- An environment whose extraction returns a relevance score of 15,
above the declared 0-10 range. -/
def envX : Env where
  analyzeDesire := fun _ => .ok ⟨[⟨"q", "en"⟩]⟩
  search := fun _ _ _ => .ok [⟨"u1"⟩]
  scrape := fun _ => .ok (some pad)
  extractProduct := fun _ _ => .ok ⟨"Big", none, 15⟩

/-- The products of the arrival-order slot list that pass the non-null and
`relevanceScore >= 5` guards, i.e. the inputs the dedup check actually
sees, in arrival order. -/
def eligibleProducts (slots : List (Option Product)) : List Product :=
  (slots.filterMap id).filter (fun p => decide (5 ≤ p.relevanceScore))

lemma mem_insertDesc {p a : Product} : ∀ {l : List Product},
    a ∈ insertDesc p l ↔ a = p ∨ a ∈ l := by
  intro l
  induction l with
  | nil => simp [insertDesc]
  | cons q qs ih =>
    by_cases h : q.relevanceScore ≤ p.relevanceScore
    · simp [insertDesc, h]
    · simp only [insertDesc, if_neg h, List.mem_cons, ih]
      tauto

lemma insertDesc_perm (p : Product) (l : List Product) :
    List.Perm (insertDesc p l) (p :: l) := by
  induction l with
  | nil => simp [insertDesc]
  | cons q qs ih =>
    by_cases h : q.relevanceScore ≤ p.relevanceScore
    · simp [insertDesc, h]
    · simp only [insertDesc, if_neg h]
      exact (ih.cons q).trans (List.Perm.swap p q qs)

lemma sortDesc_perm (l : List Product) : List.Perm (sortDesc l) l := by
  induction l with
  | nil => rfl
  | cons x xs ih =>
    have h1 : sortDesc (x :: xs) = insertDesc x (sortDesc xs) := rfl
    rw [h1]
    exact (insertDesc_perm x (sortDesc xs)).trans (ih.cons x)

lemma insertDesc_pairwise (p : Product) {l : List Product}
    (h : List.Pairwise (fun a b => b.relevanceScore ≤ a.relevanceScore) l) :
    List.Pairwise (fun a b => b.relevanceScore ≤ a.relevanceScore)
      (insertDesc p l) := by
  induction l with
  | nil => simp [insertDesc]
  | cons q qs ih =>
    rcases List.pairwise_cons.mp h with ⟨hq, hqs⟩
    by_cases hle : q.relevanceScore ≤ p.relevanceScore
    · simp only [insertDesc, if_pos hle]
      refine List.pairwise_cons.mpr ⟨?_, h⟩
      intro b hb
      rcases List.mem_cons.mp hb with rfl | hb'
      · exact hle
      · exact le_trans (hq b hb') hle
    · simp only [insertDesc, if_neg hle]
      refine List.pairwise_cons.mpr ⟨?_, ih hqs⟩
      intro b hb
      rcases mem_insertDesc.mp hb with rfl | hb'
      · exact le_of_lt (lt_of_not_ge hle)
      · exact hq b hb'

lemma sortDesc_sorted (l : List Product) :
    List.Pairwise (fun a b => b.relevanceScore ≤ a.relevanceScore)
      (sortDesc l) := by
  induction l with
  | nil => simp [sortDesc]
  | cons x xs ih => exact insertDesc_pairwise x ih

/-- Stability of the insertion step: inserting `p` does not change the
subsequence of elements of any fixed score, because `p` is placed before
exactly the elements of strictly smaller score. -/
lemma insertDesc_filter (p : Product) (s : Int) : ∀ l : List Product,
    (insertDesc p l).filter (fun q => q.relevanceScore == s) =
      ((p :: l).filter (fun q => q.relevanceScore == s)) := by
  intro l
  induction l with
  | nil => rfl
  | cons q qs ih =>
    by_cases hle : q.relevanceScore ≤ p.relevanceScore
    · simp [insertDesc, hle]
    · simp only [insertDesc, if_neg hle, List.filter_cons]
      by_cases hq : q.relevanceScore = s
      · have hp : ¬ p.relevanceScore = s := by
          intro hp
          exact hle (le_of_eq (hq.trans hp.symm))
        simp [hq, hp, ih, List.filter_cons]
      · simp [hq, ih, List.filter_cons]

/-- Stability of the sort: for every score `s`, the elements of score `s`
appear in `sortDesc l` exactly as they appear in `l` (ties keep their
original relative order). -/
lemma sortDesc_filter (s : Int) : ∀ l : List Product,
    (sortDesc l).filter (fun q => q.relevanceScore == s) =
      l.filter (fun q => q.relevanceScore == s) := by
  intro l
  induction l with
  | nil => rfl
  | cons x xs ih =>
    have h1 : sortDesc (x :: xs) = insertDesc x (sortDesc xs) := rfl
    rw [h1, insertDesc_filter, List.filter_cons, List.filter_cons, ih]

lemma mem_addProduct {acc : List Product} {a : Product} (ha : a ∈ acc)
    (slot : Option Product) : a ∈ addProduct acc slot := by
  cases slot with
  | none => exact ha
  | some product =>
    simp only [addProduct]
    split
    · split
      · exact ha
      · exact List.mem_append_left _ ha
    · exact ha

lemma foldl_addProduct_score : ∀ (slots : List (Option Product))
    (acc : List Product), (∀ q ∈ acc, 5 ≤ q.relevanceScore) →
    ∀ p ∈ slots.foldl addProduct acc, 5 ≤ p.relevanceScore := by
  intro slots
  induction slots with
  | nil => intro acc hacc p hp; exact hacc p hp
  | cons slot rest ih =>
    intro acc hacc p hp
    refine ih (addProduct acc slot) ?_ p hp
    intro q hq
    cases slot with
    | none => exact hacc q hq
    | some product =>
      simp only [addProduct] at hq
      split at hq
      next h5 =>
        split at hq
        next => exact hacc q hq
        next =>
          rcases List.mem_append.mp hq with h | h
          · exact hacc q h
          · rcases List.mem_singleton.mp h with rfl
            exact h5
      next => exact hacc q hq

lemma foldl_addProduct_append : ∀ (slots : List (Option Product))
    (acc : List Product), ∃ r, slots.foldl addProduct acc = acc ++ r ∧
      r.Sublist (eligibleProducts slots) := by
  intro slots
  induction slots with
  | nil => intro acc; exact ⟨[], by simp, by simp [eligibleProducts]⟩
  | cons slot rest ih =>
    intro acc
    cases slot with
    | none =>
      rcases ih acc with ⟨r, h1, h2⟩
      exact ⟨r, h1, by simpa [eligibleProducts] using h2⟩
    | some product =>
      by_cases h5 : 5 ≤ product.relevanceScore
      · have helig : eligibleProducts (some product :: rest) =
            product :: eligibleProducts rest := by
          simp [eligibleProducts, List.filterMap_cons, List.filter_cons, h5]
        by_cases hd : acc.any (fun p => isDuplicate p product) = true
        · rcases ih acc with ⟨r, h1, h2⟩
          refine ⟨r, ?_, ?_⟩
          · simpa [addProduct, h5, hd] using h1
          · rw [helig]; exact h2.cons product
        · rcases ih (acc ++ [product]) with ⟨r, h1, h2⟩
          refine ⟨product :: r, ?_, ?_⟩
          · have hstep : (some product :: rest).foldl addProduct acc =
                rest.foldl addProduct (acc ++ [product]) := by
              simp [addProduct, h5, hd]
            rw [hstep, h1, List.append_assoc]
            rfl
          · rw [helig]; exact h2.cons₂ product
      · have helig : eligibleProducts (some product :: rest) =
            eligibleProducts rest := by
          simp [eligibleProducts, List.filterMap_cons, List.filter_cons, h5]
        rcases ih acc with ⟨r, h1, h2⟩
        refine ⟨r, ?_, ?_⟩
        · simpa [addProduct, h5] using h1
        · rw [helig]; exact h2

lemma mem_foldl_addProduct (slots : List (Option Product))
    (acc : List Product) {a : Product} (ha : a ∈ acc) :
    a ∈ slots.foldl addProduct acc := by
  rcases foldl_addProduct_append slots acc with ⟨r, h1, -⟩
  rw [h1]
  exact List.mem_append_left r ha

lemma foldl_addProduct_pairwise : ∀ (slots : List (Option Product))
    (acc : List Product),
    List.Pairwise (fun a b => isDuplicate a b = false) acc →
    List.Pairwise (fun a b => isDuplicate a b = false)
      (slots.foldl addProduct acc) := by
  intro slots
  induction slots with
  | nil => intro acc h; exact h
  | cons slot rest ih =>
    intro acc h
    refine ih (addProduct acc slot) ?_
    cases slot with
    | none => exact h
    | some product =>
      simp only [addProduct]
      split
      next =>
        split
        next => exact h
        next hd =>
          simp only [List.any_eq_true, not_exists, not_and,
            Bool.not_eq_true] at hd
          refine List.pairwise_append.mpr
            ⟨h, List.pairwise_singleton _ _, ?_⟩
          intro a ha b hb
          rcases List.mem_singleton.mp hb with rfl
          exact hd a ha
      next => exact h

lemma foldl_addProduct_complete : ∀ (slots : List (Option Product))
    (acc : List Product), ∀ y ∈ eligibleProducts slots,
      y ∈ slots.foldl addProduct acc ∨
        ∃ p ∈ slots.foldl addProduct acc, isDuplicate p y = true := by
  intro slots
  induction slots with
  | nil => intro acc y hy; simp [eligibleProducts] at hy
  | cons slot rest ih =>
    intro acc y hy
    cases slot with
    | none => exact ih acc y (by simpa [eligibleProducts] using hy)
    | some product =>
      by_cases h5 : 5 ≤ product.relevanceScore
      · have helig : eligibleProducts (some product :: rest) =
            product :: eligibleProducts rest := by
          simp [eligibleProducts, List.filterMap_cons, List.filter_cons, h5]
        rw [helig] at hy
        rcases List.mem_cons.mp hy with rfl | hy'
        · by_cases hd : acc.any (fun p => isDuplicate p y) = true
          · rcases List.any_eq_true.mp hd with ⟨p, hp, hdup⟩
            right
            exact ⟨p, mem_foldl_addProduct rest _ (mem_addProduct hp _),
              hdup⟩
          · left
            refine mem_foldl_addProduct rest (addProduct acc (some y)) ?_
            simp [addProduct, h5, hd]
        · exact ih (addProduct acc (some product)) y hy'
      · have helig : eligibleProducts (some product :: rest) =
            eligibleProducts rest := by
          simp [eligibleProducts, List.filterMap_cons, List.filter_cons, h5]
        rw [helig] at hy
        exact ih (addProduct acc (some product)) y hy

lemma dedupFirst_nil : dedupFirst [] = [] := by
  rw [dedupFirst.eq_def]

lemma dedupFirst_cons (x : String) (xs : List String) :
    dedupFirst (x :: xs) = x :: dedupFirst (xs.filter (fun y => !(y == x))) := by
  rw [dedupFirst.eq_def]

lemma foldl_insertUnique_eq : ∀ (xs acc : List String),
    xs.foldl insertUnique acc =
      acc ++ dedupFirst (xs.filter (fun y => !(acc.contains y))) := by
  intro xs
  induction xs with
  | nil => intro acc; simp [dedupFirst_nil]
  | cons x xs ih =>
    intro acc
    cases hx : acc.contains x with
    | true =>
      have hmem : x ∈ acc := by simpa using hx
      have hstep : insertUnique acc x = acc := by simp [insertUnique, hmem]
      calc (x :: xs).foldl insertUnique acc
          = xs.foldl insertUnique acc := by rw [List.foldl_cons, hstep]
        _ = acc ++ dedupFirst (xs.filter (fun y => !(acc.contains y))) :=
            ih acc
        _ = acc ++ dedupFirst ((x :: xs).filter
              (fun y => !(acc.contains y))) := by
            rw [List.filter_cons]
            simp [hmem]
    | false =>
      have hmem : x ∉ acc := by simpa using hx
      have hstep : insertUnique acc x = acc ++ [x] := by
        simp [insertUnique, hmem]
      have hfil : xs.filter (fun y => !((acc ++ [x]).contains y)) =
          (xs.filter (fun y => !(acc.contains y))).filter
            (fun y => !(y == x)) := by
        rw [List.filter_filter]
        apply List.filter_congr
        intro y _
        simp only [List.contains_eq_any_beq, List.any_append, List.any_cons,
          List.any_nil, Bool.or_false, Bool.not_or]
        exact (Bool.and_comm _ _).symm
      calc (x :: xs).foldl insertUnique acc
          = xs.foldl insertUnique (acc ++ [x]) := by
            rw [List.foldl_cons, hstep]
        _ = (acc ++ [x]) ++ dedupFirst (xs.filter
              (fun y => !((acc ++ [x]).contains y))) := ih (acc ++ [x])
        _ = acc ++ (x :: dedupFirst ((xs.filter
              (fun y => !(acc.contains y))).filter (fun y => !(y == x)))) := by
            rw [hfil, List.append_assoc]
            rfl
        _ = acc ++ dedupFirst ((x :: xs).filter
              (fun y => !(acc.contains y))) := by
            rw [List.filter_cons]
            simp only [hx, Bool.not_false, if_true]
            rw [dedupFirst_cons]

lemma setDedup_eq_dedupFirst (xs : List String) :
    setDedup xs = dedupFirst xs := by
  have h := foldl_insertUnique_eq xs []
  simpa [setDedup] using h

lemma mem_dedupFirst : ∀ (l : List String), ∀ a ∈ dedupFirst l, a ∈ l := by
  intro l
  induction l using dedupFirst.induct with
  | case1 => simp [dedupFirst_nil]
  | case2 x xs ih =>
    intro a ha
    rw [dedupFirst_cons] at ha
    rcases List.mem_cons.mp ha with rfl | ha'
    · exact List.mem_cons_self _ _
    · exact List.mem_cons_of_mem x (List.mem_of_mem_filter (ih a ha'))

lemma nodup_dedupFirst : ∀ (l : List String), (dedupFirst l).Nodup := by
  intro l
  induction l using dedupFirst.induct with
  | case1 => simp [dedupFirst_nil]
  | case2 x xs ih =>
    rw [dedupFirst_cons]
    refine List.nodup_cons.mpr ⟨?_, ih⟩
    intro hx
    have h1 := mem_dedupFirst _ x hx
    have h2 := List.of_mem_filter h1
    simp at h2

lemma distinctSpec_symm {a b : Product} (h : distinctSpec a b) :
    distinctSpec b a := by
  obtain ⟨h1, h2⟩ := h
  refine ⟨fun he => h1 he.symm, ?_⟩
  intro u hu hbu hau
  exact h2 u hu hau hbu

lemma distinctSpec_of_isDuplicate_eq_false {a b : Product}
    (h : isDuplicate a b = false) : distinctSpec a b := by
  simp only [isDuplicate, Bool.or_eq_false_iff] at h
  obtain ⟨h1, h2⟩ := h
  constructor
  · intro he
    rw [he] at h1
    simp at h1
  · intro u hu hau hbu
    rw [hau] at h2
    simp [hbu, hu] at h2

lemma mem_pipelineErrors {env : Env} {analysis : Analysis} {e : String} :
    e ∈ pipelineErrors env analysis ↔
      ∃ q ∈ limitedQueries analysis,
        (∃ msg, env.search q.query q.language 3 = Except.error msg) ∧
          e = "検索エラー: " ++ q.language := by
  simp only [pipelineErrors, List.map_map, List.mem_flatten, List.mem_map]
  constructor
  · rintro ⟨l, ⟨q, hq, rfl⟩, he⟩
    cases hs : env.search q.query q.language 3 with
    | ok res => simp [searchBranch, hs] at he
    | error msg =>
      simp only [Function.comp_apply, searchBranch, hs,
        List.mem_singleton] at he
      exact ⟨q, hq, ⟨msg, hs⟩, he⟩
  · rintro ⟨q, hq, ⟨msg, hs⟩, rfl⟩
    refine ⟨["検索エラー: " ++ q.language], ⟨q, hq, ?_⟩, List.mem_singleton_self _⟩
    simp [searchBranch, hs]

lemma runPOST_eq_of {body : ReqBody} {env : Env} {desire : String}
    {analysis : Analysis} (h1 : getDesire body = some desire)
    (h2 : env.analyzeDesire desire = Except.ok analysis) :
    runPOST body env = (Response.ok (huntPipeline env desire analysis).1,
      Call.analyze desire :: (huntPipeline env desire analysis).2) := by
  cases body with
  | parseFail => simp [getDesire] at h1
  | noDesire => simp [getDesire] at h1
  | nonString => simp [getDesire] at h1
  | str s =>
    by_cases hs : s = ""
    · simp [getDesire, hs] at h1
    · simp only [getDesire, if_neg hs, Option.some.injEq] at h1
      subst h1
      simp [runPOST, getDesire, hs, h2]

lemma runPOST_ok {body : ReqBody} {env : Env} {r : HuntResult}
    {t : List Call} (h : runPOST body env = (Response.ok r, t)) :
    ∃ desire analysis, getDesire body = some desire ∧
      env.analyzeDesire desire = Except.ok analysis ∧
      r = (huntPipeline env desire analysis).1 ∧
      t = Call.analyze desire :: (huntPipeline env desire analysis).2 := by
  cases body with
  | parseFail => simp [runPOST] at h
  | noDesire => simp [runPOST, getDesire] at h
  | nonString => simp [runPOST, getDesire] at h
  | str s =>
    by_cases hs : s = ""
    · simp [runPOST, getDesire, hs] at h
    · cases ha : env.analyzeDesire s with
      | error e => simp [runPOST, getDesire, hs, ha] at h
      | ok analysis =>
        simp only [runPOST, getDesire, if_neg hs, ha, Prod.mk.injEq,
          Response.ok.injEq] at h
        exact ⟨s, analysis, by simp [getDesire, hs], ha, h.1.symm, h.2.symm⟩

/-- C1: for every request body and every combination of external-service
outcomes, a successful response's `products` is sorted by `relevanceScore`
descending and has length at most 5; it is the 5-element prefix of a
stable sort of the kept products (`pipelineKept`, which lists them in
candidate arrival order): the sort is a permutation, and for every score
the products of that score appear in their first-encountered
(candidate-order) relative order. -/
theorem hunt_products_sorted_and_bounded :
    ∀ (body : ReqBody) (env : Env) (r : HuntResult) (t : List Call),
    runPOST body env = (Response.ok r, t) →
    List.Pairwise (fun a b => b.relevanceScore ≤ a.relevanceScore)
        r.products ∧
      r.products.length ≤ 5 ∧
      ∃ desire analysis, getDesire body = some desire ∧
        env.analyzeDesire desire = Except.ok analysis ∧
        r.products = (sortDesc (pipelineKept env desire analysis)).take 5 ∧
        List.Perm (sortDesc (pipelineKept env desire analysis))
          (pipelineKept env desire analysis) ∧
        ∀ s : Int,
          (sortDesc (pipelineKept env desire analysis)).filter
              (fun p => p.relevanceScore == s) =
            (pipelineKept env desire analysis).filter
              (fun p => p.relevanceScore == s) := by
  intro body env r t h
  rcases runPOST_ok h with ⟨desire, analysis, h1, h2, rfl, rfl⟩
  have hprod : (huntPipeline env desire analysis).1.products =
      (sortDesc (pipelineKept env desire analysis)).take 5 := rfl
  refine ⟨?_, ?_, desire, analysis, h1, h2, hprod, sortDesc_perm _,
    fun s => sortDesc_filter s _⟩
  · rw [hprod]
    exact (sortDesc_sorted _).sublist (List.take_sublist _ _)
  · rw [hprod]
    exact List.length_take_le _ _

/-- C1 witness: the sorted/bounded theorem instantiated on the concrete
happy-path environment `envA`. -/
theorem hunt_products_sorted_and_bounded_witness :
    List.Pairwise (fun a b => b.relevanceScore ≤ a.relevanceScore)
        resA.products ∧
      resA.products.length ≤ 5 ∧
      ∃ desire analysis, getDesire (ReqBody.str "d") = some desire ∧
        envA.analyzeDesire desire = Except.ok analysis ∧
        resA.products = (sortDesc (pipelineKept envA desire analysis)).take 5 ∧
        List.Perm (sortDesc (pipelineKept envA desire analysis))
          (pipelineKept envA desire analysis) ∧
        ∀ s : Int,
          (sortDesc (pipelineKept envA desire analysis)).filter
              (fun p => p.relevanceScore == s) =
            (pipelineKept envA desire analysis).filter
              (fun p => p.relevanceScore == s) :=
  hunt_products_sorted_and_bounded (ReqBody.str "d") envA resA traceA
    (by decide)

/-- C6: every product of a successful response has `relevanceScore >= 5`;
a slot whose product scores below 5 is dropped and never appears. -/
theorem hunt_products_min_relevance :
    ∀ (body : ReqBody) (env : Env) (r : HuntResult) (t : List Call),
    runPOST body env = (Response.ok r, t) →
    ∀ p ∈ r.products, 5 ≤ p.relevanceScore := by
  intro body env r t h p hp
  rcases runPOST_ok h with ⟨desire, analysis, -, -, rfl, -⟩
  have hp1 : p ∈ sortDesc (pipelineKept env desire analysis) :=
    List.take_subset _ _ hp
  have hp2 : p ∈ pipelineKept env desire analysis :=
    (sortDesc_perm _).mem_iff.mp hp1
  exact foldl_addProduct_score _ [] (by simp) p hp2

/-- C6 witness: in `envA` the run succeeds (its `Gamma` product scores 4
and is gone from the response), and the theorem applies to every returned
product. -/
theorem hunt_products_min_relevance_witness :
    (∀ p ∈ resA.products, 5 ≤ p.relevanceScore) ∧
      (envA.extractProduct ("u4" ++ pad) "d" =
        Except.ok ⟨"Gamma", none, 4⟩) ∧
      ∀ p ∈ resA.products, p.name ≠ "Gamma" :=
  ⟨hunt_products_min_relevance (ReqBody.str "d") envA resA traceA
    (by decide), by rfl, by decide⟩

/-- C7: no two products of a successful response share a case-folded name
or a non-empty `officialUrl` (`distinctSpec`, pairwise); moreover the kept
products are a sublist of the eligible arrivals (so products are only ever
dropped, not reordered, by the dedup loop), and every eligible arrival is
either kept or has a duplicate among the kept products (first arrival
wins, later duplicates are skipped). -/
theorem hunt_products_no_duplicates :
    ∀ (body : ReqBody) (env : Env) (r : HuntResult) (t : List Call),
    runPOST body env = (Response.ok r, t) →
    List.Pairwise distinctSpec r.products ∧
      ∃ desire analysis, getDesire body = some desire ∧
        env.analyzeDesire desire = Except.ok analysis ∧
        (pipelineKept env desire analysis).Sublist
          (eligibleProducts (pipelineSlots env desire analysis)) ∧
        ∀ y ∈ eligibleProducts (pipelineSlots env desire analysis),
          y ∈ pipelineKept env desire analysis ∨
            ∃ p ∈ pipelineKept env desire analysis,
              isDuplicate p y = true := by
  intro body env r t h
  rcases runPOST_ok h with ⟨desire, analysis, h1, h2, rfl, rfl⟩
  have hkept : List.Pairwise (fun a b => isDuplicate a b = false)
      (pipelineKept env desire analysis) :=
    foldl_addProduct_pairwise _ [] List.Pairwise.nil
  have hspec : List.Pairwise distinctSpec
      (pipelineKept env desire analysis) :=
    hkept.imp (fun hab => distinctSpec_of_isDuplicate_eq_false hab)
  have hsym : ∀ {x y : Product}, distinctSpec x y → distinctSpec y x :=
    fun hab => distinctSpec_symm hab
  have hsorted : List.Pairwise distinctSpec
      (sortDesc (pipelineKept env desire analysis)) :=
    (List.Perm.pairwise_iff hsym (sortDesc_perm _)).mpr hspec
  refine ⟨hsorted.sublist (List.take_sublist _ _), desire, analysis,
    h1, h2, ?_, ?_⟩
  · rcases foldl_addProduct_append (pipelineSlots env desire analysis) []
      with ⟨rr, hr1, hr2⟩
    have hk : pipelineKept env desire analysis = rr := by
      simpa [pipelineKept, keptProducts] using hr1
    rw [hk]
    exact hr2
  · intro y hy
    exact foldl_addProduct_complete _ [] y hy

/-- C7 witness: on `envA` — whose extractions contain a case-insensitive
name duplicate (`alpha` vs `Alpha`) and an `officialUrl` duplicate
(`Beta` sharing `http://a` with `Alpha`) — the returned products are
pairwise distinct in the spec's sense, and both duplicates were skipped in
favour of the earlier arrival. -/
theorem hunt_products_no_duplicates_witness :
    List.Pairwise distinctSpec resA.products ∧
      (envA.extractProduct ("u2" ++ pad) "d" =
        Except.ok ⟨"alpha", none, 9⟩) ∧
      (envA.extractProduct ("u3" ++ pad) "d" =
        Except.ok ⟨"Beta", some "http://a", 8⟩) ∧
      ∀ p ∈ resA.products, p.name ≠ "alpha" ∧ p.name ≠ "Beta" :=
  ⟨(hunt_products_no_duplicates (ReqBody.str "d") envA resA traceA
      (by decide)).1, by rfl, by rfl, by decide⟩

/-- C2 counterexample: in `envD` the scrape of `"u1"` succeeds with
content of exactly 100 characters — content "not shorter than 100
characters" — yet the branch performs no extraction call and yields no
product (the guard is `content.length > 100`, strictly), even though
extraction would succeed if called.  The whole run makes no `extract`
call at all. -/
theorem content_exactly_100_skips_extraction :
    envD.scrape "u1" = Except.ok (some pad100) ∧
      pad100.length = 100 ∧
      scrapeBranch envD "d" "u1" = (none, [Call.scrape "u1"]) ∧
      Call.extract pad100 "d" ∉ (runPOST (ReqBody.str "d") envD).2 ∧
      ∀ c, Call.extract c "d" ∉ (runPOST (ReqBody.str "d") envD).2 := by
  refine ⟨by rfl, by decide, by decide, ?_, ?_⟩
  · decide
  · intro c hc
    have : (runPOST (ReqBody.str "d") envD).2 =
        [Call.analyze "d", Call.search "q" "en" 3, Call.scrape "u1"] := by
      decide
    rw [this] at hc
    simp at hc

/-- C2 (amended): a scrape branch invokes `extractProduct` exactly when
the scrape succeeded with content strictly longer than 100 characters; if
the scrape throws, yields no content, or yields content of 100 or fewer
characters, the branch yields no product and makes no extraction call.
Additionally, every error entry of a successful response originates from
a failed search branch — scrape/extract branches never append to
`errors`. -/
theorem scrape_branch_extraction_guard :
    ∀ (env : Env) (desire url : String),
    (∀ c, env.scrape url = Except.ok (some c) → 100 < c.length →
      (scrapeBranch env desire url).2 =
          [Call.scrape url, Call.extract c desire] ∧
        ∀ p, env.extractProduct c desire = Except.ok p →
          (scrapeBranch env desire url).1 = some p) ∧
    (∀ e, env.scrape url = Except.error e →
      scrapeBranch env desire url = (none, [Call.scrape url])) ∧
    (env.scrape url = Except.ok none →
      scrapeBranch env desire url = (none, [Call.scrape url])) ∧
    (∀ c, env.scrape url = Except.ok (some c) → c.length ≤ 100 →
      scrapeBranch env desire url = (none, [Call.scrape url])) ∧
    ∀ (body : ReqBody) (r : HuntResult) (t : List Call),
      runPOST body env = (Response.ok r, t) →
      ∀ e ∈ r.errors, ∃ (q : TranslatedQuery) (msg : String),
        env.search q.query q.language 3 = Except.error msg ∧
          e = "検索エラー: " ++ q.language := by
  intro env desire url
  refine ⟨?_, ?_, ?_, ?_, ?_⟩
  · intro c hc hlen
    have hne : ¬(c = "") := by
      intro he
      rw [he] at hlen
      simp at hlen
    have hok : contentOk (some c) = true := by
      simp [contentOk, hne, hlen]
    cases hx : env.extractProduct c desire with
    | ok p =>
      constructor
      · simp [scrapeBranch, hc, hok, hx]
      · intro p' hp'
        cases hp'
        simp [scrapeBranch, hc, hok, hx]
    | error msg =>
      constructor
      · simp [scrapeBranch, hc, hok, hx]
      · intro p' hp'
        cases hp'
  · intro e he
    simp [scrapeBranch, he]
  · intro hn
    simp [scrapeBranch, hn, contentOk]
  · intro c hc hlen
    have h1 : ¬ (100 < c.length) := not_lt.mpr hlen
    have hok : contentOk (some c) = false := by
      simp [contentOk, h1]
    simp [scrapeBranch, hc, hok]
  · intro body r t hrun e he
    rcases runPOST_ok hrun with ⟨desire', analysis, -, -, rfl, -⟩
    have he' : e ∈ pipelineErrors env analysis := he
    rcases mem_pipelineErrors.mp he' with ⟨q, -, ⟨msg, hs⟩, rfl⟩
    exact ⟨q, msg, hs, rfl⟩

/-- C2 witness: the guard theorem instantiated on `envA` at url `"u1"`,
whose content has 103 characters: extraction is called on that content
and its product becomes the branch's slot. -/
theorem scrape_branch_extraction_guard_witness :
    (scrapeBranch envA "d" "u1").2 =
        [Call.scrape "u1", Call.extract ("u1" ++ pad) "d"] ∧
      (scrapeBranch envA "d" "u1").1 =
        some ⟨"Alpha", some "http://a", 7⟩ := by
  have h := ((scrape_branch_extraction_guard envA "d" "u1").1
    ("u1" ++ pad) (by rfl) (by decide))
  exact ⟨h.1, h.2 ⟨"Alpha", some "http://a", 7⟩ (by rfl)⟩

/-- C3: the merger maps each hit to its link, keeps the first occurrence
of each distinct link in arrival order (`setDedup`, the embedding of
`[...new Set(...)]`, coincides with the recursive first-occurrence
deduplication `dedupFirst`), truncates to the first 5 survivors (so the
output has no duplicates and length at most 5); hits for locations
[A, B, A, C] yield candidates [A, B, C]. -/
theorem merger_first_occurrence_dedup_and_cap :
    (∀ hits : List SearchResult,
      mergeCandidates hits = (dedupFirst (hits.map (·.link))).take 5 ∧
        (mergeCandidates hits).Nodup ∧
        (mergeCandidates hits).length ≤ 5) ∧
      mergeCandidates [⟨"A"⟩, ⟨"B"⟩, ⟨"A"⟩, ⟨"C"⟩] = ["A", "B", "C"] := by
  constructor
  · intro hits
    refine ⟨?_, ?_, List.length_take_le _ _⟩
    · rw [mergeCandidates, setDedup_eq_dedupFirst]
    · rw [mergeCandidates]
      have h1 : (setDedup (hits.map (·.link))).Nodup := by
        rw [setDedup_eq_dedupFirst]
        exact nodup_dedupFirst _
      exact List.Nodup.sublist (List.take_sublist _ _) h1
  · decide

/-- C5: if the Query Analyzer call throws, the whole request fails with
the generic server error, and the only external call ever made is the
analyzer call itself — no search, scrape, or extraction is performed. -/
theorem analyzer_failure_is_fatal :
    ∀ (body : ReqBody) (env : Env) (desire e : String),
    getDesire body = some desire →
    env.analyzeDesire desire = Except.error e →
    runPOST body env =
      (Response.serverError "内部エラーが発生しました",
        [Call.analyze desire]) := by
  intro body env desire e h1 h2
  cases body with
  | parseFail => simp [getDesire] at h1
  | noDesire => simp [getDesire] at h1
  | nonString => simp [getDesire] at h1
  | str s =>
    by_cases hs : s = ""
    · simp [getDesire, hs] at h1
    · simp only [getDesire, if_neg hs, Option.some.injEq] at h1
      subst h1
      simp [runPOST, getDesire, hs, h2]

/-- C5 witness: on `envC`, whose analyzer throws, the request with desire
`"d"` returns the generic 500 and the trace holds only the analyzer
call. -/
theorem analyzer_failure_is_fatal_witness :
    runPOST (ReqBody.str "d") envC =
      (Response.serverError "内部エラーが発生しました",
        [Call.analyze "d"]) :=
  analyzer_failure_is_fatal (ReqBody.str "d") envC "d" "analyzer down"
    (by rfl) (by rfl)

/-- C4: when exactly one of the two search branches fails (either
direction), the request still succeeds, the returned `errors` list is
exactly the one entry naming the failed branch's language, `totalSearched`
is the successful branch's hit count, and the candidate urls are computed
from the successful branch's hits alone. -/
theorem one_search_branch_failure :
    ∀ (body : ReqBody) (env : Env) (desire : String) (analysis : Analysis)
      (q1 q2 : TranslatedQuery),
    getDesire body = some desire →
    env.analyzeDesire desire = Except.ok analysis →
    limitedQueries analysis = [q1, q2] →
    (∀ e hits, env.search q1.query q1.language 3 = Except.error e →
      env.search q2.query q2.language 3 = Except.ok hits →
      ∃ r t, runPOST body env = (Response.ok r, t) ∧
        r.errors = ["検索エラー: " ++ q1.language] ∧
        r.totalSearched = hits.length ∧
        pipelineUrls env analysis = mergeCandidates hits) ∧
    (∀ hits e, env.search q1.query q1.language 3 = Except.ok hits →
      env.search q2.query q2.language 3 = Except.error e →
      ∃ r t, runPOST body env = (Response.ok r, t) ∧
        r.errors = ["検索エラー: " ++ q2.language] ∧
        r.totalSearched = hits.length ∧
        pipelineUrls env analysis = mergeCandidates hits) := by
  intro body env desire analysis q1 q2 h1 h2 h3
  constructor
  · intro e hits hf hs
    have hh : pipelineHits env analysis = hits := by
      simp [pipelineHits, h3, searchBranch, hf, hs]
    refine ⟨(huntPipeline env desire analysis).1, _,
      runPOST_eq_of h1 h2, ?_, ?_, ?_⟩
    · show pipelineErrors env analysis = _
      simp [pipelineErrors, h3, searchBranch, hf, hs]
    · show (pipelineHits env analysis).length = _
      rw [hh]
    · simp [pipelineUrls, hh]
  · intro hits e hs hf
    have hh : pipelineHits env analysis = hits := by
      simp [pipelineHits, h3, searchBranch, hf, hs]
    refine ⟨(huntPipeline env desire analysis).1, _,
      runPOST_eq_of h1 h2, ?_, ?_, ?_⟩
    · show pipelineErrors env analysis = _
      simp [pipelineErrors, h3, searchBranch, hf, hs]
    · show (pipelineHits env analysis).length = _
      rw [hh]
    · simp [pipelineUrls, hh]

/-- C4 witness: on `envB` the English branch throws and the Japanese
branch returns two hits; the response carries exactly the one English
error entry, `totalSearched = 2`, and both Japanese hits become
candidates. -/
theorem one_search_branch_failure_witness :
    ∃ r t, runPOST (ReqBody.str "d") envB = (Response.ok r, t) ∧
      r.errors = ["検索エラー: " ++ "en"] ∧
      r.totalSearched = ([⟨"v1"⟩, ⟨"v2"⟩] : List SearchResult).length ∧
      pipelineUrls envB ⟨[⟨"q1", "en"⟩, ⟨"q2", "ja"⟩]⟩ =
        mergeCandidates [⟨"v1"⟩, ⟨"v2"⟩] :=
  (one_search_branch_failure (ReqBody.str "d") envB "d"
      ⟨[⟨"q1", "en"⟩, ⟨"q2", "ja"⟩]⟩ ⟨"q1", "en"⟩ ⟨"q2", "ja"⟩
      (by rfl) (by rfl) (by rfl)).1 "search down" [⟨"v1"⟩, ⟨"v2"⟩]
    (by rfl) (by rfl)

/-- C8: scrape/extract branch failures are contained in their branch: a
throwing scrape yields `(none, no extract call)`, a throwing extraction
yields `none` for that branch only, every error entry of the response
originates from a failed search branch (scrape/extract failures append
nothing to `errors`), `totalScraped` equals the number of candidate urls
attempted regardless of how many branches produced a product, and each
candidate's slot is computed by its own branch alone. -/
theorem scrape_extract_isolation :
    ∀ (body : ReqBody) (env : Env) (r : HuntResult) (t : List Call)
      (desire : String) (analysis : Analysis),
    getDesire body = some desire →
    env.analyzeDesire desire = Except.ok analysis →
    runPOST body env = (Response.ok r, t) →
    (∀ url e, env.scrape url = Except.error e →
      scrapeBranch env desire url = (none, [Call.scrape url])) ∧
    (∀ url c msg, env.scrape url = Except.ok (some c) →
      env.extractProduct c desire = Except.error msg → 100 < c.length →
      scrapeBranch env desire url =
        (none, [Call.scrape url, Call.extract c desire])) ∧
    (∀ e ∈ r.errors, ∃ q ∈ limitedQueries analysis,
      (∃ msg, env.search q.query q.language 3 = Except.error msg) ∧
        e = "検索エラー: " ++ q.language) ∧
    r.totalScraped = (pipelineUrls env analysis).length ∧
    pipelineSlots env desire analysis =
      (pipelineUrls env analysis).map
        (fun url => (scrapeBranch env desire url).1) := by
  intro body env r t desire analysis h1 h2 hrun
  have hr : r = (huntPipeline env desire analysis).1 := by
    have h := (runPOST_eq_of h1 h2).symm.trans hrun
    simp only [Prod.mk.injEq, Response.ok.injEq] at h
    exact h.1.symm
  refine ⟨?_, ?_, ?_, ?_, ?_⟩
  · intro url e he
    simp [scrapeBranch, he]
  · intro url c msg hc hx hlen
    have hne : ¬(c = "") := by
      intro hce
      rw [hce] at hlen
      simp at hlen
    have hok : contentOk (some c) = true := by
      simp [contentOk, hne, hlen]
    simp [scrapeBranch, hc, hok, hx]
  · intro e he
    rw [hr] at he
    exact mem_pipelineErrors.mp he
  · rw [hr]
    rfl
  · simp [pipelineSlots, List.map_map]

/-- C8 witness: on `envB` every scrape throws; the v1 branch yields no
product and no extract call, yet the response still counts both attempted
candidates in `totalScraped`. -/
theorem scrape_extract_isolation_witness :
    scrapeBranch envB "d" "v1" = (none, [Call.scrape "v1"]) ∧
      ({ desire := "d", products := [], totalSearched := 2,
          totalScraped := 2, errors := ["検索エラー: en"] } :
        HuntResult).totalScraped =
        (pipelineUrls envB ⟨[⟨"q1", "en"⟩, ⟨"q2", "ja"⟩]⟩).length := by
  have h := scrape_extract_isolation (ReqBody.str "d") envB
    { desire := "d", products := [], totalSearched := 2,
      totalScraped := 2, errors := ["検索エラー: en"] }
    [Call.analyze "d", Call.search "q1" "en" 3, Call.search "q2" "ja" 3,
     Call.scrape "v1", Call.scrape "v2"]
    "d" ⟨[⟨"q1", "en"⟩, ⟨"q2", "ja"⟩]⟩ (by rfl) (by rfl) (by decide)
  exact ⟨h.1 "v1" "scrape down" (by rfl), h.2.2.2.1⟩

/-- C9: a request whose `desire` field is missing, not a string, or the
empty string is answered with the 400 client error and its short message,
and no external call of any kind is made (empty call trace). -/
theorem invalid_desire_rejected :
    ∀ (body : ReqBody) (env : Env),
    body = ReqBody.noDesire ∨ body = ReqBody.nonString ∨
      body = ReqBody.str "" →
    runPOST body env =
      (Response.badRequest "欲求を入力してください", []) := by
  rintro body env (rfl | rfl | rfl)
  · rfl
  · rfl
  · rfl

/-- C9 witness: the empty desire string, against the live-looking
environment `envA`, is rejected with 400 and an empty call trace. -/
theorem invalid_desire_rejected_witness :
    runPOST (ReqBody.str "") envA =
      (Response.badRequest "欲求を入力してください", []) :=
  invalid_desire_rejected (ReqBody.str "") envA (Or.inr (Or.inr rfl))

/-- C10: no stage checks or clamps an upper bound on `relevanceScore`: the
filter loop appends any non-duplicate product scoring at least 5 whatever
its score, and on `envX` — whose extraction scores 15, above the declared
0-10 range — the final response contains the product with its score 15
intact. -/
theorem relevance_score_not_upper_bounded :
    (∀ (p : Product) (acc : List Product), 5 ≤ p.relevanceScore →
      acc.any (fun q => isDuplicate q p) = false →
      addProduct acc (some p) = acc ++ [p]) ∧
    (runPOST (ReqBody.str "d") envX).1 =
      Response.ok ({ desire := "d",
                     products := [⟨"Big", none, 15⟩],
                     totalSearched := 1,
                     totalScraped := 1,
                     errors := [] } : HuntResult) := by
  constructor
  · intro p acc h5 hd
    simp [addProduct, h5, hd]
  · decide

/-- C10 witness: the filter-stage clause applied to the score-15 product
against an empty accumulator. -/
theorem relevance_score_not_upper_bounded_witness :
    addProduct [] (some ⟨"Big", none, 15⟩) = [] ++ [⟨"Big", none, 15⟩] :=
  relevance_score_not_upper_bounded.1 ⟨"Big", none, 15⟩ []
    (by decide) (by rfl)

end DesireHunter
